import Mathlib

/-!
# Verification of the indexator plan/export/branding pipeline

Shallow embedding of the behavioural core of the repository:

* `frontend/src/lib/plan-capabilities.ts` (`getPlanCapabilities`)
* `frontend/src/lib/logo-storage.ts` (`extractLogoFilenameFromUrl`, `toApiLogoPath`)
* `frontend/src/app/api/audit/[id]/export/route.ts` (`GET`)
* the brand-settings `PUT` route
* the GSC disconnect `DELETE` route
* `frontend/src/app/api/indexing/sites/[siteId]/auto-index/route.ts` (`PATCH`)

TypeScript strings are modelled as Lean `String`/`List Char`; JavaScript
runtime values that routes inspect dynamically (`typeof`, truthiness) are
modelled by the small universe `JsVal`.  The WHATWG `new URL(input, base)`
pathname computation used by `extractLogoFilenameFromUrl` is embedded by
`urlPathname` below (scheme detection, authority skipping, backslash
normalisation in special URLs, query/fragment stripping, percent-encoding of
the path percent-encode set, and dot-segment removal, against the fixed base
`https://placeholder.local`).  Host-syntax validation (which can make the URL
constructor throw) is not modelled; none of the claims depend on it.
-/

/-- A JavaScript runtime value, as far as the route handlers inspect one:
`undefined`, `null`, strings, numbers and booleans. -/
inductive JsVal where
  | undef : JsVal
  | jsnull : JsVal
  | jstr : String → JsVal
  | jnum : Int → JsVal
  | jbool : Bool → JsVal
deriving DecidableEq, Repr

/-- JavaScript truthiness: `undefined`, `null`, `""`, `0` and `false` are falsy. -/
def JsVal.truthy : JsVal → Bool
  | .undef => false
  | .jsnull => false
  | .jstr s => !(s == "")
  | .jnum n => !(n == 0)
  | .jbool b => b

/-- The string coercion `String(v)` applied by the `URL` constructor. -/
def JsVal.asUrlString : JsVal → String
  | .undef => "undefined"
  | .jsnull => "null"
  | .jstr s => s
  | .jnum n => toString n
  | .jbool b => toString b

/-- `v` holds a JavaScript string (`typeof v === "string"`). -/
def JsVal.isStr : JsVal → Bool
  | .jstr _ => true
  | _ => false

/-! ## WHATWG URL pathname model -/

/-- C0 control or space, trimmed from the ends of URL input. -/
def isC0OrSpace (c : Char) : Bool := decide (c.toNat ≤ 0x20)

/-- ASCII tab or newline, removed everywhere from URL input. -/
def isTabOrNewline (c : Char) : Bool := decide (c.toNat = 9 ∨ c.toNat = 10 ∨ c.toNat = 13)

/-- URL input preprocessing: trim leading/trailing C0-or-space, drop tabs/newlines. -/
def urlPreprocess (l : List Char) : List Char :=
  (((l.dropWhile isC0OrSpace).reverse.dropWhile isC0OrSpace).reverse).filter
    (fun c => !isTabOrNewline c)

/-- ASCII lowercase conversion, as `toLowerCase`/scheme normalisation use it. -/
def lowerChar (c : Char) : Char :=
  if 65 ≤ c.toNat ∧ c.toNat ≤ 90 then Char.ofNat (c.toNat + 32) else c

/-- Characters allowed in a URL scheme after the first. -/
def isSchemeChar (c : Char) : Bool :=
  c.isAlpha || c.isDigit || c == '+' || c == '-' || c == '.'

/-- Split `scheme:rest`, lowercasing the scheme; `none` when input has no scheme. -/
def schemeSplit (l : List Char) : Option (List Char × List Char) :=
  match l with
  | [] => none
  | c :: _ =>
    if c.isAlpha then
      let sch := l.takeWhile isSchemeChar
      match l.drop sch.length with
      | ':' :: rest => some (sch.map lowerChar, rest)
      | _ => none
    else none

/-- The WHATWG special schemes. -/
def specialSchemes : List (List Char) :=
  ["http".toList, "https".toList, "ws".toList, "wss".toList, "ftp".toList, "file".toList]

/-- Forward or backward slash (the latter acts as a separator in special URLs). -/
def isSlash (c : Char) : Bool := c == '/' || c == '\\'

/-- The WHATWG path percent-encode set: C0 controls, DEL and above, space,
quote, angle brackets, backtick and curly braces. -/
def needsPathEncode (c : Char) : Bool :=
  decide (c.toNat ≤ 0x1f ∨ 0x7f ≤ c.toNat ∨ c.toNat = 0x20 ∨ c.toNat = 0x22 ∨
    c.toNat = 0x3c ∨ c.toNat = 0x3e ∨ c.toNat = 0x60 ∨ c.toNat = 0x7b ∨ c.toNat = 0x7d)

/-- Uppercase hex digit. -/
def hexDigitChar (n : Nat) : Char :=
  if n < 10 then Char.ofNat (48 + n) else Char.ofNat (55 + n)

/-- `%XX` escape of one byte. -/
def percentByte (b : Nat) : List Char :=
  ['%', hexDigitChar (b / 16), hexDigitChar (b % 16)]

/-- UTF-8 bytes of a scalar value. -/
def utf8Bytes (c : Char) : List Nat :=
  let n := c.toNat
  if n < 0x80 then [n]
  else if n < 0x800 then [0xc0 + n / 64, 0x80 + n % 64]
  else if n < 0x10000 then [0xe0 + n / 4096, 0x80 + n / 64 % 64, 0x80 + n % 64]
  else [0xf0 + n / 262144, 0x80 + n / 4096 % 64, 0x80 + n / 64 % 64, 0x80 + n % 64]

/-- Percent-encode one path character (identity outside the encode set). -/
def encodePathChar (c : Char) : List Char :=
  if needsPathEncode c then (utf8Bytes c).flatMap percentByte else [c]

/-- Percent-encode a path segment. -/
def encodeSeg (s : List Char) : List Char := s.flatMap encodePathChar

/-- Percent-encode one character of an opaque (cannot-be-a-base) path. -/
def encodeOpaqueChar (c : Char) : List Char :=
  if c.toNat ≤ 0x1f || c.toNat ≥ 0x7f then (utf8Bytes c).flatMap percentByte else [c]

/-- `l` begins with a forward slash. -/
def headIsFwdSlash (l : List Char) : Bool :=
  match l with
  | c :: _ => c == '/'
  | [] => false

/-- Split a character list on `/`; always returns at least one (possibly empty) part. -/
def splitOnSlash : List Char → List (List Char)
  | [] => [[]]
  | c :: t =>
    if c == '/' then [] :: splitOnSlash t
    else
      match splitOnSlash t with
      | h :: r => (c :: h) :: r
      | [] => [[c]]

/-- A single-dot path segment (`.` or a percent-encoded variant). -/
def isSingleDotSeg (s : List Char) : Bool :=
  s == ['.'] || s.map lowerChar == "%2e".toList

/-- A double-dot path segment (`..` or a percent-encoded variant). -/
def isDoubleDotSeg (s : List Char) : Bool :=
  let low := s.map lowerChar
  s == ['.', '.'] || low == ".%2e".toList || low == "%2e.".toList || low == "%2e%2e".toList

/-- WHATWG path-state dot-segment removal: `..` pops the previous segment, `.`
is dropped, and either, when final, leaves a trailing empty segment. -/
def removeDotSegs : List (List Char) → List (List Char) → List (List Char)
  | acc, [] => acc.reverse
  | acc, s :: rest =>
    if isDoubleDotSeg s then
      match rest with
      | [] => ([] :: acc.tail).reverse
      | _ :: _ => removeDotSegs acc.tail rest
    else if isSingleDotSeg s then
      match rest with
      | [] => ([] :: acc).reverse
      | _ :: _ => removeDotSegs acc rest
    else removeDotSegs (s :: acc) rest

/-- Join path segments with `/` separators. -/
def joinSegs : List (List Char) → List Char
  | [] => []
  | [s] => s
  | s :: s2 :: rest => s ++ '/' :: joinSegs (s2 :: rest)

/-- Serialize a non-opaque URL path (`/` before each segment). -/
def serializePath (segs : List (List Char)) : List Char :=
  '/' :: joinSegs segs

/-- The raw path characters of `rest`: strip query/fragment, treat `\` as
`/` in special URLs, and drop one leading slash. -/
def pathChars (special : Bool) (rest : List Char) : List Char :=
  let pc := rest.takeWhile (fun c => c != '?' && c != '#')
  let pc := cond special (pc.map (fun c => if c == '\\' then '/' else c)) pc
  cond (headIsFwdSlash pc) pc.tail pc

/-- Parse a (non-opaque) path from `rest`, which begins at the path (possibly
with its leading slash): split into segments, percent-encode, remove dot
segments and serialize. -/
def pathFromRest (special : Bool) (rest : List Char) : List Char :=
  serializePath (removeDotSegs [] ((splitOnSlash (pathChars special rest)).map encodeSeg))

/-- Pathname of a cannot-be-a-base URL (non-special scheme, no slash). -/
def opaquePathname (rest : List Char) : List Char :=
  (rest.takeWhile (fun c => c != '?' && c != '#')).flatMap encodeOpaqueChar

/-- Skip an authority component: drop characters up to the first path,
query or fragment delimiter. -/
def skipAuthority (special : Bool) (l : List Char) : List Char :=
  l.dropWhile (fun c =>
    if special then !(isSlash c) && c != '?' && c != '#'
    else c != '/' && c != '?' && c != '#')

/-- The head of `l` is a slash (forward or backward). -/
def headIsSlash (l : List Char) : Bool :=
  match l with
  | c :: _ => isSlash c
  | [] => false

/-- Relative-reference parse against the base `https://placeholder.local`
(special scheme, base path `/`, no query). -/
def relativePathname (l : List Char) : List Char :=
  match l with
  | [] => ['/']
  | c :: rest =>
    if c == '?' || c == '#' then ['/']
    else if isSlash c then
      if headIsSlash rest then
        pathFromRest true (skipAuthority true (rest.dropWhile isSlash))
      else pathFromRest true l
    else pathFromRest true l

/-- `l` begins with two forward slashes. -/
def startsWithTwoSlashes (l : List Char) : Bool :=
  match l with
  | c :: c2 :: _ => c == '/' && c2 == '/'
  | _ => false

/-- The pathname of `new URL(input, "https://placeholder.local")`.  Wrapped in
`Option` to mirror the `try`/`catch` around the constructor (host-validation
failures are not modelled, so the parse itself always succeeds). -/
def urlPathname (l : List Char) : Option (List Char) :=
  let l := urlPreprocess l
  match schemeSplit l with
  | some (sch, rest) =>
    if specialSchemes.contains sch then
      if sch == "https".toList && !(startsWithTwoSlashes rest) then
        some (relativePathname rest)
      else
        some (pathFromRest true (skipAuthority true (rest.dropWhile isSlash)))
    else
      if startsWithTwoSlashes rest then
        some (pathFromRest false (skipAuthority false (rest.drop 2)))
      else if headIsFwdSlash rest then some (pathFromRest false rest)
      else some (opaquePathname rest)
  | none => some (relativePathname l)

/-! ## logo-storage.ts -/

/-- One character of `FILENAME_RE = /^[a-zA-Z0-9_.-]+$/` (by code point:
`A`-`Z`, `a`-`z`, `0`-`9`, `_` 95, `.` 46, `-` 45). -/
def FILENAME_RE_char (c : Char) : Bool :=
  decide ((65 ≤ c.toNat ∧ c.toNat ≤ 90) ∨ (97 ≤ c.toNat ∧ c.toNat ≤ 122) ∨
    (48 ≤ c.toNat ∧ c.toNat ≤ 57) ∨ c.toNat = 95 ∨ c.toNat = 46 ∨ c.toNat = 45)

/-- `FILENAME_RE.test raw`: nonempty, every character in the allow-list. -/
def filenameMatches (s : List Char) : Bool := !s.isEmpty && s.all FILENAME_RE_char

/-- `l` with the literal leading sequence `p` removed (`startsWith` + `slice`). -/
def dropStart : List Char → List Char → Option (List Char)
  | [], l => some l
  | _ :: _, [] => none
  | p :: ps, c :: cs => if p == c then dropStart ps cs else none

/-- `pat` occurs as a contiguous subsequence of the list. -/
def containsSeq (pat : List Char) : List Char → Bool
  | [] => (dropStart pat []).isSome
  | c :: t => (dropStart pat (c :: t)).isSome || containsSeq pat t

/-- The internal serving path the resolver recognises and produces,
`"/api/upload/logo/"`, as an explicit character list. -/
def apiLogoPre : List Char :=
  ['/', 'a', 'p', 'i', '/', 'u', 'p', 'l', 'o', 'a', 'd', '/', 'l', 'o', 'g', 'o', '/']

/-- The relative uploads path the resolver recognises, `"/uploads/"`. -/
def uploadsPre : List Char := ['/', 'u', 'p', 'l', 'o', 'a', 'd', 's', '/']

/-- `extractLogoFilenameFromUrl` from `logo-storage.ts`: falsy input → `null`;
otherwise parse the input's URL pathname, strip one of the two recognised
prefixes, and require the remainder to match `FILENAME_RE`. -/
def extractLogoFilenameFromUrl (logoUrl : JsVal) : Option String :=
  if !logoUrl.truthy then none
  else
    match urlPathname logoUrl.asUrlString.toList with
    | none => none
    | some pathname =>
      match dropStart apiLogoPre pathname with
      | some raw => if filenameMatches raw then some (String.mk raw) else none
      | none =>
        match dropStart uploadsPre pathname with
        | some raw => if filenameMatches raw then some (String.mk raw) else none
        | none => none

/-- `toApiLogoPath` from `logo-storage.ts`. -/
def toApiLogoPath (logoUrl : JsVal) : Option String :=
  (extractLogoFilenameFromUrl logoUrl).map (fun filename => "/api/upload/logo/" ++ filename)

/-! ## plan-capabilities.ts -/

/-- The capability record returned by `getPlanCapabilities`. -/
structure PlanCapabilities where
  allowedExportFormats : List String
  canUseBranding : Bool
  showWatermark : Bool
  unlimitedAudits : Bool
deriving DecidableEq, Repr

/-- `getPlanCapabilities` from `plan-capabilities.ts`; `none` models both
`null` and `undefined` plan identifiers. -/
def getPlanCapabilities (planId : Option String) : PlanCapabilities :=
  let isAgency := planId == some "agency"
  let isFree := planId == some "free"
  { allowedExportFormats := if isAgency then ["pdf", "html", "docx"] else ["pdf"]
    canUseBranding := isAgency
    showWatermark := isFree
    unlimitedAudits := isAgency }

/-! ## Shared JS string helpers -/

/-- `a || d` for a nullable JS string: `null`/`undefined` and `""` are falsy. -/
def jsStrOr (v : Option String) (d : String) : String :=
  match v with
  | some s => if s == "" then d else s
  | none => d

/-- `s.toLowerCase()` (ASCII case mapping, which covers the format strings here). -/
def jsToLower (s : String) : String := String.mk (s.data.map lowerChar)

/-- `s.startsWith(pre)` for JS strings. -/
def strStartsWith (s pre : String) : Bool := (dropStart pre.toList s.toList).isSome

/-- Truthy-or-absent normalisation of a nullable string field: `some ""` and
`none` both act as absent. -/
def optTruthy (v : Option String) : Option String :=
  match v with
  | some s => if s == "" then none else some s
  | none => none

/-! ## Export route: /api/audit/[id]/export -/

/-- The fields of a `User` row the export route selects. -/
structure UserRec where
  planId : Option String
deriving DecidableEq, Repr

/-- The fields of an `Audit` row the export route reads. -/
structure AuditRec where
  userId : String
  fastApiId : String
  resultJson : Option String
  language : Option String
deriving DecidableEq, Repr

/-- A stored `BrandSettings` row as the export route reads it. -/
structure BrandRec where
  companyName : Option String
  primaryColor : Option String
  accentColor : Option String
  logoUrl : Option String
deriving DecidableEq, Repr

/-- A response from the upstream FastAPI report service. -/
structure UpstreamResp where
  status : Nat
  contentType : Option String
  contentDisposition : Option String
  body : String
deriving DecidableEq, Repr

/-- `fetch`'s `res.ok`: status in the 2xx range. -/
def respOk (r : UpstreamResp) : Bool := 200 ≤ r.status && r.status < 300

/-- The `brand` object assembled for the upstream calls (fields present only
when truthy, exactly as the object spreads build it). -/
structure Brand where
  company_name : Option String
  primary_color : Option String
  accent_color : Option String
  logo_url : Option String
deriving DecidableEq, Repr

/-- The `logoUrl` expression of the export route: absolute `http(s)` logo URLs
pass through, anything else is prefixed with the request origin (adding a
leading slash when missing); falsy stored values give `undefined`. -/
def buildLogoUrl (origin : String) (v : Option String) : Option String :=
  match v with
  | none => none
  | some s =>
    if s == "" then none
    else some
      (if strStartsWith s "http://" || strStartsWith s "https://" then s
       else origin ++ (if strStartsWith s "/" then s else "/" ++ s))

/-- The `brand` construction of the export route, including the
`Object.keys(brand).length === 0` collapse to `undefined`. -/
def buildBrand (origin : String) (br : BrandRec) : Option Brand :=
  let b : Brand :=
    { company_name := optTruthy br.companyName
      primary_color := optTruthy br.primaryColor
      accent_color := optTruthy br.accentColor
      logo_url := optTruthy (buildLogoUrl origin br.logoUrl) }
  if b.company_name.isNone && b.primary_color.isNone && b.accent_color.isNone &&
      b.logo_url.isNone then none
  else some b

/-- The query parameters of the upstream download call, in insertion order. -/
def exportQuery (format : String) (langParam : Option String) (wm : Bool)
    (brand : Option Brand) : List (String × String) :=
  [("format", format)]
  ++ (match langParam with
      | some s => if s == "" then [] else [("lang", s)]
      | none => [])
  ++ [("show_watermark", if wm then "true" else "false")]
  ++ (match brand with
      | none => []
      | some b =>
        (match b.company_name with | some v => [("company_name", v)] | none => [])
        ++ (match b.primary_color with | some v => [("primary_color", v)] | none => [])
        ++ (match b.accent_color with | some v => [("accent_color", v)] | none => [])
        ++ (match b.logo_url with | some v => [("logo_url", v)] | none => []))

/-- The JSON body POSTed to `/api/report/generate`.  The `audit` field is
`JSON.parse(audit.resultJson)`; since parse of the stored serialisation
determines the payload, the model carries the serialised string itself. -/
structure GenerateBody where
  format : String
  audit : String
  language : String
  show_watermark : Bool
  brand : Option Brand
deriving DecidableEq, Repr

/-- One outbound call to the FastAPI service. -/
inductive UpstreamCall where
  | download (fastApiId : String) (query : List (String × String))
  | generate (body : GenerateBody)
deriving DecidableEq, Repr

/-- The HTTP response of the export route. -/
inductive ExportResult where
  | jsonError (status : Nat) (error : String)
  | binary (contentType : String) (contentDisposition : String) (body : String)
deriving DecidableEq, Repr

/-- `SUPPORTED_FORMATS` from the export route. -/
def SUPPORTED_FORMATS : List String := ["pdf", "html", "docx"]

/-- The request environment of one export `GET`: session, query parameters,
database lookups, and the two possible upstream responses. -/
structure ExportEnv where
  session : Option String
  formatParam : Option String
  langParam : Option String
  origin : String
  users : String → Option UserRec
  audits : String → Option AuditRec
  brandSettings : String → Option BrandRec
  downloadRes : UpstreamResp
  generateRes : UpstreamResp

/-- The export route `GET` handler: returns its HTTP response together with
the trace of upstream calls it issued. -/
def exportGET (env : ExportEnv) (id : String) : ExportResult × List UpstreamCall :=
  match env.session with
  | none => (.jsonError 401 "Unauthorized", [])
  | some uid =>
    let requestedFormat := jsToLower (jsStrOr env.formatParam "pdf")
    if !(SUPPORTED_FORMATS.contains requestedFormat) then
      (.jsonError 400 "Unsupported export format", [])
    else
      match env.users uid with
      | none => (.jsonError 404 "User not found", [])
      | some user =>
        let capabilities := getPlanCapabilities user.planId
        if !(capabilities.allowedExportFormats.contains requestedFormat) then
          (.jsonError 403 "Your plan allows PDF export only", [])
        else
          match env.audits id with
          | none => (.jsonError 404 "Not found", [])
          | some audit =>
            if !(audit.userId == uid) then (.jsonError 404 "Not found", [])
            else
              let brand :=
                if capabilities.canUseBranding then
                  (env.brandSettings uid).bind (buildBrand env.origin)
                else none
              let q := exportQuery requestedFormat env.langParam
                capabilities.showWatermark brand
              let dl := env.downloadRes
              let dlCall := UpstreamCall.download audit.fastApiId q
              let proxied : ExportResult × List UpstreamCall :=
                if !(respOk dl) then (.jsonError dl.status "Export failed", [dlCall])
                else
                  (.binary (jsStrOr dl.contentType "application/octet-stream")
                    (jsStrOr dl.contentDisposition "") dl.body, [dlCall])
              match audit.resultJson with
              | some rj =>
                if dl.status == 404 && !(rj == "") then
                  let body : GenerateBody :=
                    { format := requestedFormat
                      audit := rj
                      language := jsStrOr env.langParam (jsStrOr audit.language "en")
                      show_watermark := capabilities.showWatermark
                      brand := brand }
                  let gen := env.generateRes
                  if !(respOk gen) then
                    (.jsonError gen.status "Report generation failed",
                      [dlCall, .generate body])
                  else
                    (.binary (jsStrOr gen.contentType "application/octet-stream")
                      (jsStrOr gen.contentDisposition "") gen.body,
                      [dlCall, .generate body])
                else proxied
              | none => proxied

/-! ## Brand-settings PUT route -/

/-- The `BrandSettings` columns the PUT route writes. -/
structure BrandStoreRec where
  companyName : Option String
  logoUrl : Option String
deriving DecidableEq, Repr

/-- The response of the brand-settings PUT. -/
inductive PutResult where
  | err (status : Nat) (msg : String)
  | ok (stored : BrandStoreRec)
deriving DecidableEq, Repr

/-- Prisma `update` field semantics: `undefined` leaves the column unchanged,
`null` clears it, a string sets it.  Non-string values never reach the upsert
(they are rejected by the validations before it). -/
def dbUpdateVal (v : JsVal) (old : Option String) : Option String :=
  match v with
  | .undef => old
  | .jsnull => none
  | .jstr s => some s
  | _ => none

/-- Prisma `create` field semantics: absent/`null` values store NULL. -/
def dbCreateVal (v : JsVal) : Option String :=
  match v with
  | .jstr s => some s
  | _ => none

/-- The request environment of one brand-settings `PUT`: session, user lookup,
the caller's stored row, and the two JSON body fields. -/
structure PutEnv where
  session : Option String
  users : String → Option UserRec
  brandStore : Option BrandStoreRec
  companyNameField : JsVal
  logoUrlField : JsVal

/-- The brand-settings `PUT` handler: returns its response and the caller's
stored row after the request. -/
def putBrandSettings (env : PutEnv) : PutResult × Option BrandStoreRec :=
  match env.session with
  | none => (.err 401 "Unauthorized", env.brandStore)
  | some uid =>
    match env.users uid with
    | none => (.err 403 "Agency plan required", env.brandStore)
    | some user =>
      if !(user.planId == some "agency") then (.err 403 "Agency plan required", env.brandStore)
      else
        let cn := env.companyNameField
        let cnInvalid : Bool :=
          !(cn == .undef) && !(cn == .jsnull) &&
            (match cn with
             | .jstr s => decide (s.length > 100)
             | _ => true)
        if cnInvalid then
          (.err 400 "Company name must be a string under 100 characters", env.brandStore)
        else
          let doUpsert : JsVal → PutResult × Option BrandStoreRec := fun normalized =>
            match env.brandStore with
            | some old =>
              let r : BrandStoreRec :=
                { companyName := dbUpdateVal cn old.companyName
                  logoUrl := dbUpdateVal normalized old.logoUrl }
              (.ok r, some r)
            | none =>
              let r : BrandStoreRec :=
                { companyName := dbCreateVal cn
                  logoUrl := dbCreateVal normalized }
              (.ok r, some r)
          let lu := env.logoUrlField
          if !(lu == .undef) && !(lu == .jsnull) && !(lu == .jstr "") then
            match toApiLogoPath lu with
            | none => (.err 400 "Invalid logo URL", env.brandStore)
            | some np => doUpsert (.jstr np)
          else doUpsert lu

/-! ## GSC disconnect route -/

/-- The OAuth `Account` row fields the disconnect route touches. -/
structure AccountRec where
  id : String
  access_token : Option String
  refresh_token : Option String
  expires_at : Option Int
  scope : Option String
deriving DecidableEq, Repr

/-- The user's GSC connection state. -/
structure GscUser where
  gscConnected : Bool
  gscConnectedAt : Option Int
deriving DecidableEq, Repr

/-- The database state the disconnect route can affect: the caller's
connection flags, site rows and OAuth account row. -/
structure GscDb where
  user : GscUser
  sites : List String
  account : Option AccountRec
deriving DecidableEq, Repr

/-- One database write of the disconnect route. -/
inductive DbOp where
  | clearAccountTokens
  | setGscDisconnected
  | deleteUserSites
deriving DecidableEq, Repr

/-- A write as issued: standalone, or grouped in a `prisma.$transaction`
(which applies all-or-nothing). -/
inductive DbAction where
  | single (o : DbOp)
  | tx (ops : List DbOp)
deriving DecidableEq, Repr

/-- The response of the disconnect route. -/
inductive DisconnectResult where
  | err (status : Nat) (msg : String)
  | success
deriving DecidableEq, Repr

/-- The disconnect `DELETE` handler: its response and the ordered database
writes it issues.  The best-effort Google token revocation is an external
call whose failure is swallowed, so it contributes no database action. -/
def disconnectDELETE (session : Option String) (deleteDataParam : Option String)
    (account : Option AccountRec) : DisconnectResult × List DbAction :=
  match session with
  | none => (.err 401 "Unauthorized", [])
  | some _ =>
    let deleteData := !(deleteDataParam == some "false")
    let tokenActs : List DbAction :=
      match account with
      | some _ => [.single .clearAccountTokens]
      | none => []
    if deleteData then
      (.success, tokenActs ++ [.tx [.setGscDisconnected, .deleteUserSites]])
    else
      (.success, tokenActs ++ [.single .setGscDisconnected])

/-- Effect of one database write. -/
def applyOp (o : DbOp) (db : GscDb) : GscDb :=
  match o with
  | .clearAccountTokens =>
    { db with account := db.account.map (fun a =>
        { a with access_token := none, refresh_token := none,
                 expires_at := none, scope := none }) }
  | .setGscDisconnected => { db with user := { gscConnected := false, gscConnectedAt := none } }
  | .deleteUserSites => { db with sites := [] }

/-- Effect of one action; a transaction applies all its writes. -/
def applyAction : DbAction → GscDb → GscDb
  | .single o, db => applyOp o db
  | .tx ops, db => ops.foldl (fun d o => applyOp o d) db

/-- Run all actions in order. -/
def runActions (acts : List DbAction) (db : GscDb) : GscDb :=
  acts.foldl (fun d a => applyAction a d) db

/-- Run with a failure before action `k`: completed actions keep their
effects, the failing action — a transaction being atomic — applies none. -/
def runActionsUpTo (k : Nat) (acts : List DbAction) (db : GscDb) : GscDb :=
  runActions (acts.take k) db

/-! ## Auto-index PATCH route -/

/-- A `Site` row as the auto-index route reads and writes it. -/
structure SiteRec where
  userId : String
  autoIndexGoogle : Bool
  autoIndexBing : Bool
deriving DecidableEq, Repr

/-- The response of the auto-index PATCH. -/
inductive AutoIdxResult where
  | err (status : Nat) (msg : String)
  | ok (autoIndexGoogle autoIndexBing : Bool)
deriving DecidableEq, Repr

/-- The body-field interpretation of the route: only values with
`typeof v === "boolean"` become part of the update. -/
def toggleVal (v : JsVal) : Option Bool :=
  match v with
  | .jbool b => some b
  | _ => none

/-- The request environment of one auto-index `PATCH`: session, the site
lookup for the requested id, the owning user's plan capability
(`user?.plan?.autoIndexing`; `none` models a missing user or plan), and the
parsed JSON body's `google`/`bing` fields (`none` = `req.json()` threw). -/
structure AutoIdxEnv where
  session : Option String
  site : Option SiteRec
  planAutoIndexing : Option Bool
  body : Option (JsVal × JsVal)

/-- The auto-index `PATCH` handler: its response and the site row after the
request. -/
def autoIndexPATCH (env : AutoIdxEnv) : AutoIdxResult × Option SiteRec :=
  match env.session with
  | none => (.err 401 "Unauthorized", env.site)
  | some uid =>
    match env.site with
    | none => (.err 404 "Site not found", env.site)
    | some site =>
      if !(site.userId == uid) then (.err 404 "Site not found", env.site)
      else
        match env.body with
        | none => (.err 400 "Invalid JSON body", env.site)
        | some (g, b) =>
          let updG : Option Bool := toggleVal g
          let updB : Option Bool := toggleVal b
          if updG.isNone && updB.isNone then (.err 400 "No fields to update", env.site)
          else
            let doUpdate : AutoIdxResult × Option SiteRec :=
              let s' : SiteRec :=
                { site with
                    autoIndexGoogle := updG.getD site.autoIndexGoogle
                    autoIndexBing := updB.getD site.autoIndexBing }
              (.ok s'.autoIndexGoogle s'.autoIndexBing, some s')
            if updG.getD false || updB.getD false then
              if !(env.planAutoIndexing == some true) then
                (.err 403 "Auto-indexing is not available on your plan", env.site)
              else doUpdate
            else doUpdate

/-! ## Concrete witness data and derived definitions -/

/-- The brand value the export route computes for a given caller. -/
def exportBrand (env : ExportEnv) (uid : String) (u : UserRec) : Option Brand :=
  if (getPlanCapabilities u.planId).canUseBranding = true then
    (env.brandSettings uid).bind (buildBrand env.origin)
  else none
def exportEnvW : ExportEnv :=
  { session := some "u1"
    formatParam := some "docx"
    langParam := none
    origin := "https://app.example"
    users := fun uid => if uid = "u1" then some { planId := some "pro" } else none
    audits := fun aid =>
      if aid = "a1" then
        some { userId := "u1", fastApiId := "f1", resultJson := some "[1,2]",
               language := some "en" }
      else none
    brandSettings := fun _ => none
    downloadRes := { status := 404, contentType := none, contentDisposition := none, body := "" }
    generateRes := { status := 200, contentType := some "application/pdf",
                     contentDisposition := some "attachment", body := "pdfbytes" } }
def exportEnvW3 : ExportEnv := { exportEnvW with formatParam := some "pdf" }
def exportEnvW2 : ExportEnv :=
  { exportEnvW with
      formatParam := some "pdf"
      audits := fun _ =>
        some { userId := "u2", fastApiId := "f1", resultJson := none, language := none } }
def gscDbW : GscDb :=
  { user := { gscConnected := true, gscConnectedAt := some 5 }
    sites := ["s1", "s2"]
    account := some { id := "acc1", access_token := some "tok", refresh_token := some "ref",
                      expires_at := some 99, scope := some "gsc" } }
/-- A company-name field that passes the PUT validation: absent, `null`, or a
string of at most 100 characters. -/
def cnOK (v : JsVal) : Prop :=
  v = .undef ∨ v = .jsnull ∨ ∃ c, v = .jstr c ∧ c.length ≤ 100
def putEnvW : PutEnv :=
  { session := some "u1"
    users := fun _ => some { planId := some "agency" }
    brandStore := some { companyName := some "Acme", logoUrl := some "/api/upload/logo/old.png" }
    companyNameField := .undef
    logoUrlField := .jstr "https://example.com/evil.png" }
def putEnvCex : PutEnv := { putEnvW with logoUrlField := .jstr "" }

/-! ## Helper lemmas -/

theorem lowerShift : ∀ n : Nat, n < 91 → 65 ≤ n → (Char.ofNat (n + 32)).toNat = n + 32 := by
  decide

theorem lowerChar_idem (c : Char) : lowerChar (lowerChar c) = lowerChar c := by
  unfold lowerChar
  by_cases h : 65 ≤ c.toNat ∧ c.toNat ≤ 90
  · rw [if_pos h]
    have hv := lowerShift c.toNat (by omega) h.1
    rw [hv, if_neg (by omega)]
  · rw [if_neg h, if_neg h]

theorem string_mk_data (s : String) : String.mk s.data = s := rfl

theorem string_eq_of_data {a b : String} (h : a.data = b.data) : a = b := by
  cases a; cases b; simp_all

theorem jsToLower_idem (s : String) : jsToLower (jsToLower s) = jsToLower s := by
  unfold jsToLower
  apply string_eq_of_data
  show (s.data.map lowerChar).map lowerChar = s.data.map lowerChar
  rw [List.map_map]
  exact List.map_congr_left fun c _ => lowerChar_idem c

theorem jsToLower_empty_iff (s : String) : jsToLower s = "" ↔ s = "" := by
  unfold jsToLower
  constructor
  · intro h
    have hd : s.data.map lowerChar = ("" : String).data := by rw [← h]
    have hnil : s.data.map lowerChar = [] := hd
    apply string_eq_of_data
    simpa using hnil
  · intro h
    subst h
    rfl

theorem formatNormalize (s : String) :
    jsToLower (jsStrOr (some (jsToLower s)) "pdf") = jsToLower (jsStrOr (some s) "pdf") := by
  simp only [jsStrOr]
  by_cases h : s = ""
  · subst h
    rw [show jsToLower "" = "" from rfl]
  · have h2 : jsToLower s ≠ "" := fun hh => h ((jsToLower_empty_iff s).mp hh)
    rw [if_neg (by simpa using h2), if_neg (by simpa using h), jsToLower_idem]

/-! ## C2: plan-capability policy -/

/-- **C2**: `getPlanCapabilities` is a pure total function of the plan
identifier (`none` models `null`/`undefined`): the full export set, branding
and unlimited audits hold exactly for `"agency"`; the watermark holds exactly
for `"free"`; every other identifier gets the restricted default
(`["pdf"]`, no branding, no watermark, not unlimited). -/
theorem getPlanCapabilities_policy (p : Option String) :
    ((getPlanCapabilities p).allowedExportFormats = ["pdf", "html", "docx"] ↔ p = some "agency") ∧
    ((getPlanCapabilities p).canUseBranding = true ↔ p = some "agency") ∧
    ((getPlanCapabilities p).unlimitedAudits = true ↔ p = some "agency") ∧
    ((getPlanCapabilities p).showWatermark = true ↔ p = some "free") ∧
    (p ≠ some "agency" →
      (getPlanCapabilities p).allowedExportFormats = ["pdf"] ∧
      (getPlanCapabilities p).canUseBranding = false ∧
      (getPlanCapabilities p).unlimitedAudits = false) ∧
    (p ≠ some "free" → (getPlanCapabilities p).showWatermark = false) := by
  by_cases hA : p = some "agency"
  · rw [hA]
    decide
  · by_cases hF : p = some "free"
    · rw [hF]
      decide
    · have hA' : (p == some "agency") = false := beq_eq_false_iff_ne.mpr hA
      have hF' : (p == some "free") = false := beq_eq_false_iff_ne.mpr hF
      simp [getPlanCapabilities, hA', hF', hA, hF]

theorem getPlanCapabilities_policy_witness :
    (getPlanCapabilities (some "pro")).allowedExportFormats = ["pdf"] ∧
    (getPlanCapabilities (some "pro")).canUseBranding = false ∧
    (getPlanCapabilities (some "pro")).unlimitedAudits = false ∧
    (getPlanCapabilities (some "pro")).showWatermark = false := by
  have h := getPlanCapabilities_policy (some "pro")
  have h1 := h.2.2.2.2.1 (by decide)
  exact ⟨h1.1, h1.2.1, h1.2.2, h.2.2.2.2.2 (by decide)⟩

/-! ## C6: export format gate -/

/-- **C6**: an authenticated export request whose (lowercased) format is
supported but outside the caller's plan's `allowedExportFormats` gets a 403
whose body names the PDF-only allowance, and no upstream call is issued. -/
theorem export_format_forbidden (env : ExportEnv) (id uid : String) (u : UserRec)
    (hs : env.session = some uid) (hu : env.users uid = some u)
    (hf : jsToLower (jsStrOr env.formatParam "pdf") ∈ SUPPORTED_FORMATS)
    (hna : jsToLower (jsStrOr env.formatParam "pdf") ∉
      (getPlanCapabilities u.planId).allowedExportFormats) :
    exportGET env id = (.jsonError 403 "Your plan allows PDF export only", []) := by
  simp [exportGET, hs, hu, hf, hna]

/-! ## C5: ownership failures are 404 -/

/-- **C5**: past the format and plan checks, an absent audit and an audit
owned by a different user produce the identical `404 "Not found"` response
(never a 403), with no upstream call. -/
theorem export_ownership_404 (env : ExportEnv) (id uid : String) (u : UserRec)
    (hs : env.session = some uid) (hu : env.users uid = some u)
    (hf : jsToLower (jsStrOr env.formatParam "pdf") ∈ SUPPORTED_FORMATS)
    (ha : jsToLower (jsStrOr env.formatParam "pdf") ∈
      (getPlanCapabilities u.planId).allowedExportFormats)
    (hmiss : env.audits id = none ∨ ∃ a, env.audits id = some a ∧ a.userId ≠ uid) :
    exportGET env id = (.jsonError 404 "Not found", []) := by
  rcases hmiss with h | ⟨a, ha2, hne⟩
  · simp [exportGET, hs, hu, hf, ha, h]
  · simp [exportGET, hs, hu, hf, ha, ha2, hne]

/-! ## C10: case-insensitive format matching -/

/-- **C10**: the export route lowercases the `format` query parameter before
validating it, so any casing variant behaves exactly as its lowercase form. -/
theorem export_format_case_insensitive (env : ExportEnv) (id s : String) :
    exportGET { env with formatParam := some s } id =
      exportGET { env with formatParam := some (jsToLower s) } id := by
  have key := formatNormalize s
  cases hs : env.session with
  | none => simp [exportGET, hs]
  | some uid => simp only [exportGET, hs, key]

/-! ## C9: auto-index plan gate -/

/-- **C9**: on an owned site with a parsed body, a request that sets any flag
to `true` while the owner's plan lacks the auto-indexing capability gets a
403 with the site row unchanged; a request that only sets flags (all to
`false`) succeeds and updates the row with no plan-capability condition. -/
theorem autoIndex_plan_gate (env : AutoIdxEnv) (uid : String) (site : SiteRec) (g b : JsVal)
    (hs : env.session = some uid) (hsite : env.site = some site) (hown : site.userId = uid)
    (hbody : env.body = some (g, b)) :
    (((toggleVal g).getD false || (toggleVal b).getD false) = true →
      env.planAutoIndexing ≠ some true →
      autoIndexPATCH env = (.err 403 "Auto-indexing is not available on your plan", some site)) ∧
    (((toggleVal g).isSome || (toggleVal b).isSome) = true →
      ((toggleVal g).getD false || (toggleVal b).getD false) = false →
      autoIndexPATCH env =
        (.ok ((toggleVal g).getD site.autoIndexGoogle) ((toggleVal b).getD site.autoIndexBing),
          some { site with
                   autoIndexGoogle := (toggleVal g).getD site.autoIndexGoogle
                   autoIndexBing := (toggleVal b).getD site.autoIndexBing })) := by
  have hb : (site.userId == uid) = true := beq_iff_eq.mpr hown
  have gate1 : ∀ x y : Option Bool, (x.getD false || y.getD false) = true →
      (x.isNone && y.isNone) = false := by decide
  have gate2 : ∀ x y : Option Bool, (x.isSome || y.isSome) = true →
      (x.isNone && y.isNone) = false := by decide
  constructor
  · intro htrue hplan
    have hp : (env.planAutoIndexing == some true) = false := beq_eq_false_iff_ne.mpr hplan
    have hne := gate1 (toggleVal g) (toggleVal b) htrue
    simp [autoIndexPATCH, hs, hsite, hb, hbody, hne, htrue, hp]
  · intro hsome hfalse
    have hne := gate2 (toggleVal g) (toggleVal b) hsome
    simp [autoIndexPATCH, hs, hsite, hb, hbody, hne, hfalse]

theorem autoIndex_plan_gate_witness :
    autoIndexPATCH
        { session := some "u1"
          site := some { userId := "u1", autoIndexGoogle := false, autoIndexBing := false }
          planAutoIndexing := some false
          body := some (.jbool true, .undef) } =
      (.err 403 "Auto-indexing is not available on your plan",
        some { userId := "u1", autoIndexGoogle := false, autoIndexBing := false }) := by
  exact (autoIndex_plan_gate _ "u1" _ (.jbool true) .undef rfl rfl rfl rfl).1 (by decide)
    (by decide)

/-! ## C8: disconnect atomicity -/

/-- **C8**: for an authenticated disconnect, when `deleteData` is not exactly
`"false"`, the site purge and the connection-flag clear are grouped in one
transaction: the final state has no sites and `gscConnected = false`, and a
failure at any action boundary leaves the pair either fully applied or fully
unapplied.  With `deleteData = "false"`, sites survive and only the
connection flags and the OAuth token fields change. -/
theorem disconnect_atomic (sess dd : Option String) (uid : String)
    (account : Option AccountRec) (db : GscDb)
    (hs : sess = some uid) (hdb : db.account = account) :
    (disconnectDELETE sess dd account).1 = .success ∧
    (dd ≠ some "false" →
      (runActions (disconnectDELETE sess dd account).2 db).sites = [] ∧
      (runActions (disconnectDELETE sess dd account).2 db).user.gscConnected = false ∧
      ∀ k, ((runActionsUpTo k (disconnectDELETE sess dd account).2 db).sites = [] ∧
              (runActionsUpTo k (disconnectDELETE sess dd account).2 db).user.gscConnected
                = false) ∨
           ((runActionsUpTo k (disconnectDELETE sess dd account).2 db).sites = db.sites ∧
              (runActionsUpTo k (disconnectDELETE sess dd account).2 db).user.gscConnected
                = db.user.gscConnected)) ∧
    (dd = some "false" →
      (runActions (disconnectDELETE sess dd account).2 db).sites = db.sites ∧
      (runActions (disconnectDELETE sess dd account).2 db).user.gscConnected = false ∧
      (runActions (disconnectDELETE sess dd account).2 db).user.gscConnectedAt = none ∧
      (runActions (disconnectDELETE sess dd account).2 db).account = db.account.map (fun a =>
        { a with access_token := none, refresh_token := none,
                 expires_at := none, scope := none })) := by
  subst hs
  by_cases hdd : dd = some "false"
  · have hb : (dd == some "false") = true := beq_iff_eq.mpr hdd
    rcases account with _ | acct
    · refine ⟨by simp [disconnectDELETE, hb], fun h => absurd hdd h, fun _ => ?_⟩
      simp [disconnectDELETE, hb, runActions, applyAction, applyOp, hdb]
    · refine ⟨by simp [disconnectDELETE, hb], fun h => absurd hdd h, fun _ => ?_⟩
      simp [disconnectDELETE, hb, runActions, applyAction, applyOp, hdb]
  · have hb : (dd == some "false") = false := beq_eq_false_iff_ne.mpr hdd
    rcases account with _ | acct
    · refine ⟨by simp [disconnectDELETE, hb], fun _ => ?_, fun h => absurd h hdd⟩
      refine ⟨by simp [disconnectDELETE, hb, runActions, applyAction, applyOp],
        by simp [disconnectDELETE, hb, runActions, applyAction, applyOp], fun k => ?_⟩
      match k with
      | 0 => right; simp [runActionsUpTo, runActions]
      | Nat.succ k =>
        left
        simp [disconnectDELETE, hb, runActionsUpTo, runActions, applyAction, applyOp,
          List.take_succ_cons]
    · refine ⟨by simp [disconnectDELETE, hb], fun _ => ?_, fun h => absurd h hdd⟩
      refine ⟨by simp [disconnectDELETE, hb, runActions, applyAction, applyOp],
        by simp [disconnectDELETE, hb, runActions, applyAction, applyOp], fun k => ?_⟩
      match k with
      | 0 => right; simp [runActionsUpTo, runActions]
      | 1 =>
        right
        simp [disconnectDELETE, hb, runActionsUpTo, runActions, applyAction, applyOp]
      | Nat.succ (Nat.succ k) =>
        left
        simp [disconnectDELETE, hb, runActionsUpTo, runActions, applyAction, applyOp]

theorem disconnect_atomic_witness :
    (runActions (disconnectDELETE (some "u1") none gscDbW.account).2 gscDbW).sites = [] ∧
    (runActions (disconnectDELETE (some "u1") none gscDbW.account).2 gscDbW).user.gscConnected
      = false ∧
    (((runActionsUpTo 1 (disconnectDELETE (some "u1") none gscDbW.account).2 gscDbW).sites = [] ∧
        (runActionsUpTo 1 (disconnectDELETE (some "u1") none gscDbW.account).2
            gscDbW).user.gscConnected = false) ∨
      ((runActionsUpTo 1 (disconnectDELETE (some "u1") none gscDbW.account).2 gscDbW).sites
          = gscDbW.sites ∧
        (runActionsUpTo 1 (disconnectDELETE (some "u1") none gscDbW.account).2
            gscDbW).user.gscConnected = gscDbW.user.gscConnected)) := by
  have h := disconnect_atomic (some "u1") none "u1" gscDbW.account gscDbW rfl rfl
  have h2 := h.2.1 (by decide)
  exact ⟨h2.1, h2.2.1, h2.2.2 1⟩

/-! ## C1: export regeneration fallback -/

/-- **C1**: when the upstream download answers 404 on a request that passed
all gates, a present (non-empty) `resultJson` triggers exactly one
regeneration POST carrying the cached payload with the same
format/watermark/brand and the resolved language, whose artifact (or
propagated failure status) is returned; an absent `resultJson` yields the
propagated 404 with no regeneration call. -/
theorem export_regeneration (env : ExportEnv) (id uid : String) (u : UserRec) (audit : AuditRec)
    (hs : env.session = some uid) (hu : env.users uid = some u)
    (hf : jsToLower (jsStrOr env.formatParam "pdf") ∈ SUPPORTED_FORMATS)
    (ha : jsToLower (jsStrOr env.formatParam "pdf") ∈
      (getPlanCapabilities u.planId).allowedExportFormats)
    (haud : env.audits id = some audit) (hown : audit.userId = uid)
    (h404 : env.downloadRes.status = 404) :
    (∀ rj, audit.resultJson = some rj → rj ≠ "" →
      exportGET env id =
        ((if respOk env.generateRes = true then
            ExportResult.binary (jsStrOr env.generateRes.contentType "application/octet-stream")
              (jsStrOr env.generateRes.contentDisposition "") env.generateRes.body
          else ExportResult.jsonError env.generateRes.status "Report generation failed"),
         [UpstreamCall.download audit.fastApiId
            (exportQuery (jsToLower (jsStrOr env.formatParam "pdf")) env.langParam
              (getPlanCapabilities u.planId).showWatermark (exportBrand env uid u)),
          UpstreamCall.generate
            { format := jsToLower (jsStrOr env.formatParam "pdf")
              audit := rj
              language := jsStrOr env.langParam (jsStrOr audit.language "en")
              show_watermark := (getPlanCapabilities u.planId).showWatermark
              brand := exportBrand env uid u }])) ∧
    (audit.resultJson = none ∨ audit.resultJson = some "" →
      exportGET env id =
        (ExportResult.jsonError 404 "Export failed",
         [UpstreamCall.download audit.fastApiId
            (exportQuery (jsToLower (jsStrOr env.formatParam "pdf")) env.langParam
              (getPlanCapabilities u.planId).showWatermark (exportBrand env uid u))])) := by
  have hnotok : respOk env.downloadRes = false := by
    simp [respOk, h404]
  constructor
  · intro rj hrj hne
    by_cases hg : respOk env.generateRes = true
    · simp [exportGET, exportBrand, hs, hu, hf, ha, haud, hown, hrj, h404, hne, hg]
    · simp [exportGET, exportBrand, hs, hu, hf, ha, haud, hown, hrj, h404, hne, hg]
  · intro hcase
    rcases hcase with h | h
    · simp [exportGET, exportBrand, hs, hu, hf, ha, haud, hown, h, hnotok, h404]
    · simp [exportGET, exportBrand, hs, hu, hf, ha, haud, hown, h, hnotok, h404]

theorem export_regeneration_witness :
    exportGET exportEnvW3 "a1" =
      (.binary "application/pdf" "attachment" "pdfbytes",
       [.download "f1" [("format", "pdf"), ("show_watermark", "false")],
        .generate { format := "pdf", audit := "[1,2]", language := "en",
                    show_watermark := false, brand := none }]) := by
  have h := export_regeneration exportEnvW3 "a1" "u1" { planId := some "pro" }
    { userId := "u1", fastApiId := "f1", resultJson := some "[1,2]", language := some "en" }
    rfl (by decide) (by decide) (by decide) (by decide) rfl rfl
  have h1 := h.1 "[1,2]" rfl (by decide)
  rw [h1]
  decide

theorem export_format_forbidden_witness :
    exportGET exportEnvW "a1" = (.jsonError 403 "Your plan allows PDF export only", []) :=
  export_format_forbidden exportEnvW "a1" "u1" { planId := some "pro" } rfl (by decide)
    (by decide) (by decide)

theorem export_ownership_404_witness :
    exportGET exportEnvW2 "a1" = (.jsonError 404 "Not found", []) :=
  export_ownership_404 exportEnvW2 "a1" "u1" { planId := some "pro" } rfl (by decide)
    (by decide) (by decide)
    (Or.inr ⟨{ userId := "u2", fastApiId := "f1", resultJson := none, language := none },
      rfl, by decide⟩)

/-! ## C7: brand-settings write validation -/

/-- **C7** (amended): for an agency caller, an over-long or non-string
company name fails the whole write with 400 leaving the stored row untouched;
a supplied non-null, non-empty logo string is normalised through
`toApiLogoPath`, a `none` result failing the whole write with 400 and an
untouched row, a `some` result being what is persisted. -/
theorem putBrandSettings_validation (env : PutEnv) (uid : String) (u : UserRec)
    (hs : env.session = some uid) (hu : env.users uid = some u)
    (hag : u.planId = some "agency") :
    (∀ c, env.companyNameField = .jstr c → 100 < c.length →
      putBrandSettings env =
        (.err 400 "Company name must be a string under 100 characters", env.brandStore)) ∧
    (env.companyNameField ≠ .undef → env.companyNameField ≠ .jsnull →
      env.companyNameField.isStr = false →
      putBrandSettings env =
        (.err 400 "Company name must be a string under 100 characters", env.brandStore)) ∧
    (∀ s, cnOK env.companyNameField → env.logoUrlField = .jstr s → s ≠ "" →
      toApiLogoPath (.jstr s) = none →
      putBrandSettings env = (.err 400 "Invalid logo URL", env.brandStore)) ∧
    (∀ s np, cnOK env.companyNameField → env.logoUrlField = .jstr s → s ≠ "" →
      toApiLogoPath (.jstr s) = some np →
      ∃ r, putBrandSettings env = (.ok r, some r) ∧ r.logoUrl = some np) := by
  have hcnFalse : ∀ v : JsVal, cnOK v →
      (!(v == .undef) && !(v == .jsnull) &&
        (match v with
         | .jstr s => decide (s.length > 100)
         | _ => true)) = false := by
    intro v hv
    rcases hv with rfl | rfl | ⟨c, rfl, hlen⟩
    · rfl
    · rfl
    · simp [Nat.not_lt.mpr hlen]
  refine ⟨?_, ?_, ?_, ?_⟩
  · intro c hc hlen
    simp [putBrandSettings, hs, hu, hag, hc, hlen]
  · intro h1 h2 h3
    cases hcn : env.companyNameField with
    | undef => exact absurd hcn h1
    | jsnull => exact absurd hcn h2
    | jstr s => rw [hcn] at h3; simp [JsVal.isStr] at h3
    | jnum n => simp [putBrandSettings, hs, hu, hag, hcn]
    | jbool bb => simp [putBrandSettings, hs, hu, hag, hcn]
  · intro s hok hlu hne hnone
    have hf := hcnFalse _ hok
    simp [putBrandSettings, hs, hu, hag, hf, hlu, hne, hnone]
  · intro s np hok hlu hne hsome
    have hf := hcnFalse _ hok
    rcases hst : env.brandStore with _ | old
    · refine ⟨{ companyName := dbCreateVal env.companyNameField, logoUrl := some np }, ?_, rfl⟩
      have hc : dbCreateVal (.jstr np) = some np := rfl
      simp [putBrandSettings, hs, hu, hag, hf, hlu, hne, hsome, hst, hc]
    · refine ⟨{ companyName := dbUpdateVal env.companyNameField old.companyName,
                logoUrl := some np }, ?_, rfl⟩
      have hc : ∀ o, dbUpdateVal (.jstr np) o = some np := fun _ => rfl
      simp [putBrandSettings, hs, hu, hag, hf, hlu, hne, hsome, hst, hc]

theorem putBrandSettings_validation_witness :
    putBrandSettings putEnvW =
      (.err 400 "Invalid logo URL",
        some { companyName := some "Acme", logoUrl := some "/api/upload/logo/old.png" }) := by
  have h := (putBrandSettings_validation putEnvW "u1" { planId := some "agency" }
    rfl rfl rfl).2.2.1 "https://example.com/evil.png" (Or.inl rfl) rfl (by decide) (by decide)
  exact h

/-- **C7** (counterexample): an empty-string logo value is "supplied" and is
invalid according to the resolver (`toApiLogoPath "" = none`), yet the write
succeeds and persists it verbatim, changing the stored row — contradicting
"any supplied logo value is validated via the resolver; an invalid logo value
fails the whole write". -/
theorem putBrandSettings_empty_logo_counterexample :
    toApiLogoPath (.jstr "") = none ∧
    putBrandSettings putEnvCex =
      (.ok { companyName := some "Acme", logoUrl := some "" },
        some { companyName := some "Acme", logoUrl := some "" }) ∧
    (putBrandSettings putEnvCex).2 ≠ putEnvCex.brandStore := by
  decide

/-! ## Lemmas about the URL path model (towards C3 and C4) -/

theorem dropStart_eq : ∀ (p l r : List Char), dropStart p l = some r → l = p ++ r := by
  intro p
  induction p with
  | nil =>
    intro l r h
    simp [dropStart] at h
    simp [h]
  | cons c p ih =>
    intro l r h
    cases l with
    | nil => simp [dropStart] at h
    | cons d l =>
      simp only [dropStart] at h
      by_cases hcd : c == d
      · rw [if_pos hcd] at h
        have := ih l r h
        have hc : c = d := beq_iff_eq.mp hcd
        simp [hc, this]
      · rw [if_neg hcd] at h
        exact absurd h (by simp)

theorem dropStart_append : ∀ (p r : List Char), dropStart p (p ++ r) = some r := by
  intro p
  induction p with
  | nil => intro r; rfl
  | cons c p ih =>
    intro r
    simp only [List.cons_append, dropStart, beq_self_eq_true, if_pos]
    exact ih r

theorem splitOnSlash_noslash (s : List Char) (h : '/' ∉ s) : splitOnSlash s = [s] := by
  induction s with
  | nil => rfl
  | cons c t ih =>
    have hc : (c == '/') = false := by
      rw [beq_eq_false_iff_ne]
      intro hh
      exact h (by simp [hh])
    have ht : '/' ∉ t := fun m => h (List.mem_cons_of_mem _ m)
    simp only [splitOnSlash, hc]
    rw [ih ht]
    simp

theorem splitOnSlash_break (s t : List Char) (h : '/' ∉ s) :
    splitOnSlash (s ++ '/' :: t) = s :: splitOnSlash t := by
  induction s with
  | nil => simp [splitOnSlash]
  | cons c s ih =>
    have hc : (c == '/') = false := by
      rw [beq_eq_false_iff_ne]
      intro hh
      exact h (by simp [hh])
    have hs : '/' ∉ s := fun m => h (List.mem_cons_of_mem _ m)
    rw [List.cons_append]
    simp only [splitOnSlash, hc]
    rw [ih hs]
    simp

theorem splitOnSlash_ne_nil (l : List Char) : splitOnSlash l ≠ [] := by
  cases l with
  | nil => simp [splitOnSlash]
  | cons c t =>
    simp only [splitOnSlash]
    by_cases hc : (c == '/') = true
    · simp [hc]
    · simp only [Bool.not_eq_true] at hc
      simp only [hc]
      cases h : splitOnSlash t with
      | nil => simp
      | cons a r => simp

theorem splitOnSlash_mem_noslash :
    ∀ (l : List Char), ∀ x ∈ splitOnSlash l, '/' ∉ x := by
  intro l
  induction l with
  | nil =>
    intro x hx
    simp [splitOnSlash] at hx
    simp [hx]
  | cons c t ih =>
    intro x hx
    simp only [splitOnSlash] at hx
    by_cases hc : (c == '/') = true
    · rw [if_pos hc] at hx
      rcases List.mem_cons.mp hx with h | h
      · simp [h]
      · exact ih x h
    · rw [if_neg hc] at hx
      have hcne : c ≠ '/' := fun hh => hc (beq_iff_eq.mpr hh)
      cases hsp : splitOnSlash t with
      | nil => exact absurd hsp (splitOnSlash_ne_nil t)
      | cons a r =>
        rw [hsp] at hx
        rcases List.mem_cons.mp hx with h | h
        · subst h
          intro hm
          rcases List.mem_cons.mp hm with h2 | h2
          · exact hcne h2.symm
          · exact ih a (hsp ▸ List.mem_cons_self a r) h2
        · exact ih x (hsp ▸ List.mem_cons_of_mem a h)

theorem joinSegs_split :
    ∀ (segs : List (List Char)), (∀ s ∈ segs, '/' ∉ s) → segs ≠ [] →
      splitOnSlash (joinSegs segs) = segs := by
  intro segs
  induction segs with
  | nil => intro _ h; exact absurd rfl h
  | cons s rest ih =>
    intro hmem _
    cases rest with
    | nil =>
      show splitOnSlash (joinSegs [s]) = [s]
      rw [show joinSegs [s] = s from rfl]
      exact splitOnSlash_noslash s (hmem s (by simp))
    | cons s2 t =>
      show splitOnSlash (s ++ '/' :: joinSegs (s2 :: t)) = s :: s2 :: t
      rw [splitOnSlash_break s _ (hmem s (by simp))]
      rw [ih (fun a ha => hmem a (List.mem_cons_of_mem _ ha)) (by simp)]

theorem removeDotSegs_mem :
    ∀ (segs acc : List (List Char)) (x : List Char), x ∈ removeDotSegs acc segs →
      x = [] ∨ x ∈ acc ∨ x ∈ segs := by
  intro segs
  induction segs with
  | nil =>
    intro acc x hx
    simp only [removeDotSegs] at hx
    right; left
    exact List.mem_reverse.mp hx
  | cons s rest ih =>
    intro acc x hx
    simp only [removeDotSegs] at hx
    by_cases hd : isDoubleDotSeg s = true
    · rw [if_pos hd] at hx
      cases rest with
      | nil =>
        rcases List.mem_cons.mp (List.mem_reverse.mp hx) with h | h
        · left; exact h
        · right; left; exact List.mem_of_mem_tail h
      | cons r2 t =>
        rcases ih acc.tail x hx with h | h | h
        · left; exact h
        · right; left; exact List.mem_of_mem_tail h
        · right; right; exact List.mem_cons_of_mem _ h
    · rw [if_neg hd] at hx
      by_cases hs : isSingleDotSeg s = true
      · rw [if_pos hs] at hx
        cases rest with
        | nil =>
          rcases List.mem_cons.mp (List.mem_reverse.mp hx) with h | h
          · left; exact h
          · right; left; exact h
        | cons r2 t =>
          rcases ih acc x hx with h | h | h
          · left; exact h
          · right; left; exact h
          · right; right; exact List.mem_cons_of_mem _ h
      · rw [if_neg hs] at hx
        rcases ih (s :: acc) x hx with h | h | h
        · left; exact h
        · rcases List.mem_cons.mp h with h2 | h2
          · right; right; exact h2 ▸ List.mem_cons_self s rest
          · right; left; exact h2
        · right; right; exact List.mem_cons_of_mem _ h

theorem removeDotSegs_nodots :
    ∀ (segs acc : List (List Char)),
      (∀ a ∈ acc, isSingleDotSeg a = false ∧ isDoubleDotSeg a = false) →
      ∀ x ∈ removeDotSegs acc segs,
        isSingleDotSeg x = false ∧ isDoubleDotSeg x = false := by
  intro segs
  induction segs with
  | nil =>
    intro acc hacc x hx
    simp only [removeDotSegs] at hx
    exact hacc x (List.mem_reverse.mp hx)
  | cons s rest ih =>
    intro acc hacc x hx
    simp only [removeDotSegs] at hx
    have hnil : isSingleDotSeg ([] : List Char) = false ∧
        isDoubleDotSeg ([] : List Char) = false := by decide
    by_cases hd : isDoubleDotSeg s = true
    · rw [if_pos hd] at hx
      have htail : ∀ a ∈ acc.tail, isSingleDotSeg a = false ∧ isDoubleDotSeg a = false :=
        fun a ha => hacc a (List.mem_of_mem_tail ha)
      cases rest with
      | nil =>
        rcases List.mem_cons.mp (List.mem_reverse.mp hx) with h | h
        · exact h ▸ hnil
        · exact htail x h
      | cons r2 t => exact ih acc.tail htail x hx
    · rw [if_neg hd] at hx
      by_cases hs : isSingleDotSeg s = true
      · rw [if_pos hs] at hx
        cases rest with
        | nil =>
          rcases List.mem_cons.mp (List.mem_reverse.mp hx) with h | h
          · exact h ▸ hnil
          · exact hacc x h
        | cons r2 t => exact ih acc hacc x hx
      · rw [if_neg hs] at hx
        refine ih (s :: acc) ?_ x hx
        intro a ha
        rcases List.mem_cons.mp ha with h | h
        · subst h
          exact ⟨Bool.not_eq_true _ ▸ (by simpa using hs), Bool.not_eq_true _ ▸ (by simpa using hd)⟩
        · exact hacc a h

theorem removeDotSegs_ne_nil :
    ∀ (segs acc : List (List Char)), segs ≠ [] → removeDotSegs acc segs ≠ [] := by
  intro segs
  induction segs with
  | nil => intro acc h; exact absurd rfl h
  | cons s rest ih =>
    intro acc _
    simp only [removeDotSegs]
    by_cases hd : isDoubleDotSeg s = true
    · rw [if_pos hd]
      cases rest with
      | nil => simp
      | cons r2 t => exact ih acc.tail (by simp)
    · rw [if_neg hd]
      by_cases hs : isSingleDotSeg s = true
      · rw [if_pos hs]
        cases rest with
        | nil => simp
        | cons r2 t => exact ih acc (by simp)
      · rw [if_neg hs]
        cases rest with
        | nil => simp [removeDotSegs]
        | cons r2 t => exact ih (s :: acc) (by simp)
theorem filename_char_facts (c : Char) (h : FILENAME_RE_char c = true) :
    c ≠ '/' ∧ c ≠ '\\' ∧ c ≠ '?' ∧ c ≠ '#' ∧ needsPathEncode c = false ∧
    isC0OrSpace c = false ∧ isTabOrNewline c = false := by
  have hr := of_decide_eq_true h
  have hne : ∀ d : Char, d.toNat ≠ c.toNat → c ≠ d := by
    intro d hd he
    exact hd (he ▸ rfl)
  have e1 : ('/' : Char).toNat = 47 := rfl
  have e2 : ('\\' : Char).toNat = 92 := rfl
  have e3 : ('?' : Char).toNat = 63 := rfl
  have e4 : ('#' : Char).toNat = 35 := rfl
  refine ⟨hne '/' (by rw [e1]; omega), hne '\\' (by rw [e2]; omega),
    hne '?' (by rw [e3]; omega), hne '#' (by rw [e4]; omega), ?_, ?_, ?_⟩
  · exact decide_eq_false (by omega)
  · exact decide_eq_false (by omega)
  · exact decide_eq_false (by omega)

theorem filenameMatches_all (raw : List Char) (hm : filenameMatches raw = true) :
    ∀ c ∈ raw, FILENAME_RE_char c = true := by
  have h2 := (Bool.and_eq_true _ _ |>.mp hm).2
  exact List.all_eq_true.mp h2

theorem filenameMatches_ne_nil (raw : List Char) (hm : filenameMatches raw = true) :
    raw ≠ [] := by
  have h1 := (Bool.and_eq_true _ _ |>.mp hm).1
  intro hh
  subst hh
  simp at h1

theorem filename_noslash (raw : List Char) (hm : filenameMatches raw = true) : '/' ∉ raw := by
  intro hmem
  have := filenameMatches_all raw hm '/' hmem
  simp [FILENAME_RE_char] at this

theorem char_toNat_lt (c : Char) : c.toNat < 1114112 := by
  have hv := c.valid
  rcases hv with h | ⟨h1, h2⟩
  · have h3 : c.val.toNat < 55296 := h
    exact lt_trans h3 (by omega)
  · exact h2

theorem utf8Bytes_lt256 (c : Char) : ∀ b ∈ utf8Bytes c, b < 256 := by
  have hlt := char_toNat_lt c
  intro b hb
  unfold utf8Bytes at hb
  by_cases h1 : c.toNat < 0x80
  · simp [h1] at hb
    omega
  · by_cases h2 : c.toNat < 0x800
    · simp [h1, h2] at hb
      rcases hb with h | h <;> omega
    · by_cases h3 : c.toNat < 0x10000
      · simp [h1, h2, h3] at hb
        rcases hb with h | h | h <;> omega
      · simp [h1, h2, h3] at hb
        rcases hb with h | h | h | h <;> omega

theorem hexDigit_ne_slash : ∀ n, n < 16 → hexDigitChar n ≠ '/' := by decide

theorem percentByte_noslash (b : Nat) (hb : b < 256) : '/' ∉ percentByte b := by
  intro hm
  simp only [percentByte, List.mem_cons, List.not_mem_nil, or_false] at hm
  rcases hm with h | h | h
  · exact absurd h (by decide)
  · exact hexDigit_ne_slash (b / 16) (by omega) h.symm
  · exact hexDigit_ne_slash (b % 16) (by omega) h.symm

theorem encodePathChar_noslash (c : Char) (hc : c ≠ '/') : '/' ∉ encodePathChar c := by
  unfold encodePathChar
  by_cases h : needsPathEncode c = true
  · rw [if_pos h]
    intro hm
    rcases List.mem_flatMap.mp hm with ⟨b, hb, hmm⟩
    exact percentByte_noslash b (utf8Bytes_lt256 c b hb) hmm
  · rw [if_neg h]
    intro hm
    simp at hm
    exact hc hm.symm

theorem encodeSeg_noslash (s : List Char) (h : '/' ∉ s) : '/' ∉ encodeSeg s := by
  intro hm
  rcases List.mem_flatMap.mp hm with ⟨c, hcm, hmm⟩
  exact encodePathChar_noslash c (fun he => h (he ▸ hcm)) hmm

theorem encodeSeg_class (raw : List Char) (h : ∀ c ∈ raw, FILENAME_RE_char c = true) :
    encodeSeg raw = raw := by
  induction raw with
  | nil => rfl
  | cons c t ih =>
    have hc := (filename_char_facts c (h c (by simp))).2.2.2.2.1
    show encodePathChar c ++ encodeSeg t = c :: t
    rw [show encodePathChar c = [c] from by rw [encodePathChar, if_neg (by simp [hc])]]
    rw [ih (fun d hd => h d (List.mem_cons_of_mem _ hd))]
    rfl

theorem split_apiTail (raw : List Char) (h : '/' ∉ raw) :
    splitOnSlash
      (['a', 'p', 'i', '/', 'u', 'p', 'l', 'o', 'a', 'd', '/', 'l', 'o', 'g', 'o', '/'] ++ raw) =
      [['a', 'p', 'i'], ['u', 'p', 'l', 'o', 'a', 'd'], ['l', 'o', 'g', 'o'], raw] := by
  have e1 : (['a', 'p', 'i', '/', 'u', 'p', 'l', 'o', 'a', 'd', '/', 'l', 'o', 'g', 'o', '/']
        ++ raw) =
      ['a', 'p', 'i'] ++ '/' :: (['u', 'p', 'l', 'o', 'a', 'd'] ++ '/' ::
        (['l', 'o', 'g', 'o'] ++ '/' :: raw)) := by simp
  rw [e1, splitOnSlash_break _ _ (by decide), splitOnSlash_break _ _ (by decide),
    splitOnSlash_break _ _ (by decide), splitOnSlash_noslash raw h]

theorem split_uploadsTail (raw : List Char) (h : '/' ∉ raw) :
    splitOnSlash (['u', 'p', 'l', 'o', 'a', 'd', 's', '/'] ++ raw) =
      [['u', 'p', 'l', 'o', 'a', 'd', 's'], raw] := by
  have e1 : (['u', 'p', 'l', 'o', 'a', 'd', 's', '/'] ++ raw) =
      ['u', 'p', 'l', 'o', 'a', 'd', 's'] ++ '/' :: raw := by simp
  rw [e1, splitOnSlash_break _ _ (by decide), splitOnSlash_noslash raw h]

theorem serialized_raw_nodots (pc raw pre : List Char)
    (hpre : pre = apiLogoPre ∨ pre = uploadsPre)
    (hser : serializePath (removeDotSegs [] ((splitOnSlash pc).map encodeSeg)) = pre ++ raw)
    (hm : filenameMatches raw = true) :
    isSingleDotSeg raw = false ∧ isDoubleDotSeg raw = false := by
  have hmemS : ∀ s ∈ (splitOnSlash pc).map encodeSeg, '/' ∉ s := by
    intro s hs
    rcases List.mem_map.mp hs with ⟨s0, hs0, rfl⟩
    exact encodeSeg_noslash s0 (splitOnSlash_mem_noslash pc s0 hs0)
  have hmemO : ∀ s ∈ removeDotSegs [] ((splitOnSlash pc).map encodeSeg), '/' ∉ s := by
    intro s hs
    rcases removeDotSegs_mem _ _ s hs with h | h | h
    · subst h; simp
    · simp at h
    · exact hmemS s h
  have houtne : removeDotSegs [] ((splitOnSlash pc).map encodeSeg) ≠ [] :=
    removeDotSegs_ne_nil _ []
      (fun hh => splitOnSlash_ne_nil pc (List.map_eq_nil_iff.mp hh))
  have hrawns : '/' ∉ raw := filename_noslash raw hm
  have hjoinsplit := joinSegs_split _ hmemO houtne
  have hfinal : raw ∈ removeDotSegs [] ((splitOnSlash pc).map encodeSeg) := by
    rcases hpre with rfl | rfl
    · have hjoin2 : '/' :: joinSegs (removeDotSegs [] ((splitOnSlash pc).map encodeSeg)) =
          '/' :: (['a', 'p', 'i', '/', 'u', 'p', 'l', 'o', 'a', 'd', '/', 'l', 'o', 'g', 'o',
            '/'] ++ raw) := hser
      have htl : joinSegs (removeDotSegs [] ((splitOnSlash pc).map encodeSeg)) =
          ['a', 'p', 'i', '/', 'u', 'p', 'l', 'o', 'a', 'd', '/', 'l', 'o', 'g', 'o', '/']
            ++ raw := by
        injection hjoin2
      rw [htl, split_apiTail raw hrawns] at hjoinsplit
      rw [← hjoinsplit]
      simp
    · have hjoin2 : '/' :: joinSegs (removeDotSegs [] ((splitOnSlash pc).map encodeSeg)) =
          '/' :: (['u', 'p', 'l', 'o', 'a', 'd', 's', '/'] ++ raw) := hser
      have htl : joinSegs (removeDotSegs [] ((splitOnSlash pc).map encodeSeg)) =
          ['u', 'p', 'l', 'o', 'a', 'd', 's', '/'] ++ raw := by
        injection hjoin2
      rw [htl, split_uploadsTail raw hrawns] at hjoinsplit
      rw [← hjoinsplit]
      simp
  exact removeDotSegs_nodots _ [] (fun a ha => absurd ha (List.not_mem_nil a)) raw hfinal

theorem utf8Bytes_shape (c : Char) : ∃ b bs, utf8Bytes c = b :: bs := by
  by_cases h1 : c.toNat < 0x80
  · exact ⟨c.toNat, [], by simp [utf8Bytes, h1]⟩
  · by_cases h2 : c.toNat < 0x800
    · exact ⟨0xc0 + c.toNat / 64, [0x80 + c.toNat % 64], by simp [utf8Bytes, h1, h2]⟩
    · by_cases h3 : c.toNat < 0x10000
      · exact ⟨0xe0 + c.toNat / 4096, [0x80 + c.toNat / 64 % 64, 0x80 + c.toNat % 64],
          by simp [utf8Bytes, h1, h2, h3]⟩
      · exact ⟨0xf0 + c.toNat / 262144,
          [0x80 + c.toNat / 4096 % 64, 0x80 + c.toNat / 64 % 64, 0x80 + c.toNat % 64],
          by simp [utf8Bytes, h1, h2, h3]⟩

theorem dropStart_opaquePathname (r pre : List Char) (hpre : ∃ ps, pre = '/' :: ps)
    (hshape : r = [] ∨ ∃ c t, r = c :: t ∧ c ≠ '/') :
    dropStart pre (opaquePathname r) = none := by
  obtain ⟨ps, rfl⟩ := hpre
  rcases hshape with rfl | ⟨c, t, rfl, hc⟩
  · rfl
  · unfold opaquePathname
    rw [List.takeWhile_cons]
    by_cases hp : (c != '?' && c != '#') = true
    · rw [if_pos hp, List.flatMap_cons]
      unfold encodeOpaqueChar
      by_cases he : (c.toNat ≤ 0x1f || c.toNat ≥ 0x7f) = true
      · rw [if_pos he]
        obtain ⟨b, bs, hb⟩ := utf8Bytes_shape c
        rw [hb, List.flatMap_cons]
        show dropStart ('/' :: ps) ('%' :: _) = none
        unfold dropStart
        rw [if_neg (by decide)]
      · rw [if_neg he]
        show dropStart ('/' :: ps) (c :: _) = none
        unfold dropStart
        rw [if_neg (by simpa using fun hh => hc hh.symm)]
    · rw [if_neg hp]
      rfl

theorem relativePathname_cases (l : List Char) :
    relativePathname l = ['/'] ∨ ∃ rest, relativePathname l = pathFromRest true rest := by
  cases l with
  | nil => left; rfl
  | cons c rest =>
    simp only [relativePathname]
    by_cases h1 : (c == '?' || c == '#') = true
    · rw [if_pos h1]; left; rfl
    · rw [if_neg h1]
      by_cases h2 : isSlash c = true
      · rw [if_pos h2]
        by_cases h3 : headIsSlash rest = true
        · rw [if_pos h3]; right; exact ⟨_, rfl⟩
        · rw [if_neg h3]; right; exact ⟨_, rfl⟩
      · rw [if_neg h2]; right; exact ⟨_, rfl⟩

theorem urlPathname_cases (l pn : List Char) (h : urlPathname l = some pn) :
    (∃ sp rest, pn = pathFromRest sp rest) ∨ pn = ['/'] ∨
    (∃ r, pn = opaquePathname r ∧ (r = [] ∨ ∃ c t, r = c :: t ∧ c ≠ '/')) := by
  simp only [urlPathname] at h
  cases hss : schemeSplit (urlPreprocess l) with
  | none =>
    rw [hss] at h
    have hpn : relativePathname (urlPreprocess l) = pn := by simpa using h
    rcases relativePathname_cases (urlPreprocess l) with h2 | ⟨rest, h2⟩
    · right; left; rw [← hpn, h2]
    · left; exact ⟨true, rest, by rw [← hpn, h2]⟩
  | some pr =>
    obtain ⟨sch, rest⟩ := pr
    simp only [hss] at h
    by_cases hsp : specialSchemes.contains sch = true
    · rw [if_pos hsp] at h
      by_cases hsame : (sch == "https".toList && !(startsWithTwoSlashes rest)) = true
      · rw [if_pos hsame] at h
        have hpn : relativePathname rest = pn := by simpa using h
        rcases relativePathname_cases rest with h2 | ⟨rest2, h2⟩
        · right; left; rw [← hpn, h2]
        · left; exact ⟨true, rest2, by rw [← hpn, h2]⟩
      · rw [if_neg hsame] at h
        left
        exact ⟨true, _, by simpa using h.symm⟩
    · rw [if_neg hsp] at h
      by_cases h2s : startsWithTwoSlashes rest = true
      · rw [if_pos h2s] at h
        left; exact ⟨false, _, by simpa using h.symm⟩
      · rw [if_neg h2s] at h
        by_cases h1s : headIsFwdSlash rest = true
        · rw [if_pos h1s] at h
          left; exact ⟨false, _, by simpa using h.symm⟩
        · rw [if_neg h1s] at h
          right; right
          refine ⟨rest, by simpa using h.symm, ?_⟩
          cases rest with
          | nil => exact Or.inl rfl
          | cons c t =>
            refine Or.inr ⟨c, t, rfl, ?_⟩
            intro hh
            exact h1s (by simp [headIsFwdSlash, hh])

theorem pn_raw_nodots (l pn raw pre : List Char)
    (hpre : pre = apiLogoPre ∨ pre = uploadsPre)
    (hup : urlPathname l = some pn)
    (hda : dropStart pre pn = some raw)
    (hm : filenameMatches raw = true) :
    isSingleDotSeg raw = false ∧ isDoubleDotSeg raw = false := by
  have hpn : pn = pre ++ raw := dropStart_eq _ _ _ hda
  rcases urlPathname_cases _ _ hup with ⟨sp, rest, hcase⟩ | hcase | ⟨r, hcase, hshape⟩
  · rw [hcase] at hpn
    exact serialized_raw_nodots (pathChars sp rest) raw pre hpre hpn hm
  · exfalso
    rw [hcase] at hpn
    have hlen := congrArg List.length hpn
    rcases hpre with rfl | rfl <;> simp [apiLogoPre, uploadsPre] at hlen
  · exfalso
    have hpre2 : ∃ ps, pre = '/' :: ps := by
      rcases hpre with rfl | rfl
      · exact ⟨_, rfl⟩
      · exact ⟨_, rfl⟩
    rw [hcase] at hda
    rw [dropStart_opaquePathname r pre hpre2 hshape] at hda
    exact absurd hda (by simp)

theorem extract_inv (v : JsVal) (fn : String)
    (h : extractLogoFilenameFromUrl v = some fn) :
    ∃ pn raw, urlPathname v.asUrlString.toList = some pn ∧
      (dropStart apiLogoPre pn = some raw ∨ dropStart uploadsPre pn = some raw) ∧
      filenameMatches raw = true ∧ fn = String.mk raw := by
  unfold extractLogoFilenameFromUrl at h
  by_cases ht : (!v.truthy) = true
  · rw [if_pos ht] at h
    exact absurd h (by simp)
  · rw [if_neg ht] at h
    cases hup : urlPathname v.asUrlString.toList with
    | none =>
      simp only [hup] at h
      exact absurd h (by simp)
    | some pn =>
      simp only [hup] at h
      cases hda : dropStart apiLogoPre pn with
      | some raw =>
        simp only [hda] at h
        by_cases hm : filenameMatches raw = true
        · rw [if_pos hm] at h
          exact ⟨pn, raw, rfl, Or.inl hda, hm, by simpa using h.symm⟩
        · rw [if_neg hm] at h
          exact absurd h (by simp)
      | none =>
        simp only [hda] at h
        cases hdu : dropStart uploadsPre pn with
        | some raw =>
          simp only [hdu] at h
          by_cases hm : filenameMatches raw = true
          · rw [if_pos hm] at h
            exact ⟨pn, raw, rfl, Or.inr hdu, hm, by simpa using h.symm⟩
          · rw [if_neg hm] at h
            exact absurd h (by simp)
        | none =>
          simp only [hdu] at h
          exact absurd h (by simp)

theorem extract_raw_nodots (v : JsVal) (fn : String)
    (h : extractLogoFilenameFromUrl v = some fn) :
    ∃ raw, fn = String.mk raw ∧ filenameMatches raw = true ∧
      isSingleDotSeg raw = false ∧ isDoubleDotSeg raw = false := by
  obtain ⟨pn, raw, hup, hda, hm, hfn⟩ := extract_inv v fn h
  rcases hda with hda | hda
  · obtain ⟨h1, h2⟩ := pn_raw_nodots _ pn raw apiLogoPre (Or.inl rfl) hup hda hm
    exact ⟨raw, hfn, hm, h1, h2⟩
  · obtain ⟨h1, h2⟩ := pn_raw_nodots _ pn raw uploadsPre (Or.inr rfl) hup hda hm
    exact ⟨raw, hfn, hm, h1, h2⟩

theorem dropWhile_of_all_neg (p : Char → Bool) (l : List Char)
    (h : ∀ c ∈ l, p c = false) : l.dropWhile p = l := by
  cases l with
  | nil => rfl
  | cons c t =>
    rw [List.dropWhile_cons, if_neg]
    rw [h c (by simp)]
    simp

theorem urlPreprocess_id (l : List Char)
    (h : ∀ c ∈ l, isC0OrSpace c = false ∧ isTabOrNewline c = false) :
    urlPreprocess l = l := by
  unfold urlPreprocess
  rw [dropWhile_of_all_neg _ l (fun c hc => (h c hc).1)]
  rw [dropWhile_of_all_neg _ l.reverse
    (fun c hc => (h c (List.mem_reverse.mp hc)).1)]
  rw [List.reverse_reverse]
  rw [List.filter_eq_self.mpr]
  intro c hc
  rw [(h c hc).2]
  rfl

theorem removeDotSegs_id (segs : List (List Char)) :
    ∀ acc, (∀ s ∈ segs, isSingleDotSeg s = false ∧ isDoubleDotSeg s = false) →
      removeDotSegs acc segs = acc.reverse ++ segs := by
  induction segs with
  | nil => intro acc _; simp [removeDotSegs]
  | cons s rest ih =>
    intro acc h
    have hs := h s (by simp)
    simp only [removeDotSegs, hs.2, hs.1]
    rw [if_neg (by simp), if_neg (by simp)]
    cases rest with
    | nil => simp [removeDotSegs]
    | cons r2 t =>
      rw [ih (s :: acc) (fun a ha => h a (List.mem_cons_of_mem _ ha))]
      simp

theorem roundtrip_char_facts (raw : List Char) (hm : filenameMatches raw = true) :
    ∀ c ∈ apiLogoPre ++ raw,
      isC0OrSpace c = false ∧ isTabOrNewline c = false ∧
      (c != '?' && c != '#') = true ∧ (c == '\\') = false := by
  have hconc : ∀ c ∈ apiLogoPre,
      isC0OrSpace c = false ∧ isTabOrNewline c = false ∧
      (c != '?' && c != '#') = true ∧ (c == '\\') = false := by decide
  intro c hc
  rcases List.mem_append.mp hc with h | h
  · exact hconc c h
  · have hf := filename_char_facts c (filenameMatches_all raw hm c h)
    refine ⟨hf.2.2.2.2.2.1, hf.2.2.2.2.2.2, ?_, ?_⟩
    · rw [Bool.and_eq_true]
      constructor
      · simp [bne]
        exact hf.2.2.1
      · simp [bne]
        exact hf.2.2.2.1
    · exact beq_eq_false_iff_ne.mpr hf.2.1

theorem backslashMap_id (l : List Char) (h : ∀ c ∈ l, (c == '\\') = false) :
    l.map (fun c => if c == '\\' then '/' else c) = l := by
  have h2 : ∀ c ∈ l, (fun c => if c == '\\' then '/' else c) c = id c := by
    intro c hc
    simp [h c hc]
  rw [List.map_congr_left h2, List.map_id]

theorem pathFromRest_api (raw : List Char) (hm : filenameMatches raw = true)
    (h1 : isSingleDotSeg raw = false) (h2 : isDoubleDotSeg raw = false) :
    pathFromRest true (apiLogoPre ++ raw) = apiLogoPre ++ raw := by
  have hfacts := roundtrip_char_facts raw hm
  have hclass := filenameMatches_all raw hm
  have hchars : pathChars true (apiLogoPre ++ raw) =
      ['a', 'p', 'i', '/', 'u', 'p', 'l', 'o', 'a', 'd', '/', 'l', 'o', 'g', 'o', '/'] ++ raw := by
    simp only [pathChars, Bool.cond_true]
    rw [List.takeWhile_eq_self_iff.mpr (fun c hc => (hfacts c hc).2.2.1)]
    rw [backslashMap_id _ (fun c hc => (hfacts c hc).2.2.2)]
    rw [show headIsFwdSlash (apiLogoPre ++ raw) = true from rfl, Bool.cond_true]
    rfl
  unfold pathFromRest
  rw [hchars]
  rw [split_apiTail raw (filename_noslash raw hm)]
  rw [show List.map encodeSeg
      [['a', 'p', 'i'], ['u', 'p', 'l', 'o', 'a', 'd'], ['l', 'o', 'g', 'o'], raw] =
      [encodeSeg ['a', 'p', 'i'], encodeSeg ['u', 'p', 'l', 'o', 'a', 'd'],
        encodeSeg ['l', 'o', 'g', 'o'], encodeSeg raw] from rfl]
  rw [show encodeSeg ['a', 'p', 'i'] = ['a', 'p', 'i'] from by decide]
  rw [show encodeSeg ['u', 'p', 'l', 'o', 'a', 'd'] = ['u', 'p', 'l', 'o', 'a', 'd'] from by
    decide]
  rw [show encodeSeg ['l', 'o', 'g', 'o'] = ['l', 'o', 'g', 'o'] from by decide]
  rw [encodeSeg_class raw hclass]
  rw [removeDotSegs_id _ [] (by
    intro s hs
    simp only [List.mem_cons, List.not_mem_nil, or_false] at hs
    rcases hs with rfl | rfl | rfl | rfl
    · exact ⟨by decide, by decide⟩
    · exact ⟨by decide, by decide⟩
    · exact ⟨by decide, by decide⟩
    · exact ⟨h1, h2⟩)]
  simp only [List.reverse_nil, List.nil_append, serializePath, joinSegs]
  rfl

theorem relativePathname_api (t : List Char) :
    relativePathname ('/' :: 'a' :: t) = pathFromRest true ('/' :: 'a' :: t) := by
  simp [relativePathname, headIsSlash, isSlash]

theorem toApiLogoPath_roundtrip (raw : List Char) (hm : filenameMatches raw = true)
    (h1 : isSingleDotSeg raw = false) (h2 : isDoubleDotSeg raw = false) :
    toApiLogoPath (.jstr ("/api/upload/logo/" ++ String.mk raw)) =
      some ("/api/upload/logo/" ++ String.mk raw) := by
  have hdata : ("/api/upload/logo/" ++ String.mk raw).data = apiLogoPre ++ raw := by
    rw [String.data_append]
    rfl
  have hfacts := roundtrip_char_facts raw hm
  have hne : (("/api/upload/logo/" ++ String.mk raw) == "") = false := by
    rw [beq_eq_false_iff_ne]
    intro hh
    have hd := congrArg String.data hh
    rw [hdata] at hd
    exact absurd hd (by simp [apiLogoPre])
  have hpre : urlPreprocess (apiLogoPre ++ raw) = apiLogoPre ++ raw :=
    urlPreprocess_id _ (fun c hc => ⟨(hfacts c hc).1, (hfacts c hc).2.1⟩)
  have hscheme : schemeSplit (apiLogoPre ++ raw) = none := by
    rw [show apiLogoPre ++ raw =
      '/' :: (['a', 'p', 'i', '/', 'u', 'p', 'l', 'o', 'a', 'd', '/', 'l', 'o', 'g', 'o', '/']
        ++ raw) from rfl]
    simp only [schemeSplit]
    rw [if_neg (by decide)]
  have hurl : urlPathname (apiLogoPre ++ raw) = some (apiLogoPre ++ raw) := by
    simp only [urlPathname, hpre, hscheme]
    rw [show apiLogoPre ++ raw =
      '/' :: 'a' :: (['p', 'i', '/', 'u', 'p', 'l', 'o', 'a', 'd', '/', 'l', 'o', 'g', 'o', '/']
        ++ raw) from rfl]
    rw [relativePathname_api]
    rw [show ('/' : Char) :: 'a' ::
      (['p', 'i', '/', 'u', 'p', 'l', 'o', 'a', 'd', '/', 'l', 'o', 'g', 'o', '/'] ++ raw) =
      apiLogoPre ++ raw from rfl]
    rw [pathFromRest_api raw hm h1 h2]
  simp only [toApiLogoPath, extractLogoFilenameFromUrl, JsVal.asUrlString, JsVal.truthy, hne]
  rw [if_neg (by simp)]
  rw [show ("/api/upload/logo/" ++ String.mk raw).toList = apiLogoPre ++ raw from hdata]
  simp only [hurl, dropStart_append]
  rw [if_pos hm]
  rfl

/-! ## C4: idempotence of toApiLogoPath -/

/-- **C4**: `toApiLogoPath` is idempotent — whenever it produces a (non-null)
path, feeding that path back in reproduces it:
`toApiLogoPath (toApiLogoPath x) = toApiLogoPath x`. -/
theorem toApiLogoPath_idempotent (x p : String)
    (h : toApiLogoPath (.jstr x) = some p) :
    toApiLogoPath (.jstr p) = some p := by
  unfold toApiLogoPath at h
  rw [Option.map_eq_some'] at h
  obtain ⟨fn, hfn, hp⟩ := h
  obtain ⟨raw, hfneq, hm, h1, h2⟩ := extract_raw_nodots _ _ hfn
  subst hp
  rw [hfneq]
  exact toApiLogoPath_roundtrip raw hm h1 h2

theorem toApiLogoPath_idempotent_witness :
    toApiLogoPath (.jstr "/api/upload/logo/a.png") = some "/api/upload/logo/a.png" :=
  toApiLogoPath_idempotent "/uploads/a.png" "/api/upload/logo/a.png" (by decide)

/-! ## C3: what the logo resolver accepts -/

/-- **C3** (amended): `toApiLogoPath` produces a path exactly for inputs whose
WHATWG-parsed pathname is one of the two recognised prefixes followed by a
filename matching `[A-Za-z0-9_.-]+`; the check runs on the parsed pathname,
so `../` segments are resolved away before matching and absolute URLs are
judged by their path alone (their host is ignored). -/
theorem toApiLogoPath_pathname_gate (s p : String)
    (h : toApiLogoPath (.jstr s) = some p) :
    ∃ pn raw, urlPathname s.data = some pn ∧
      (pn = apiLogoPre ++ raw ∨ pn = uploadsPre ++ raw) ∧
      filenameMatches raw = true ∧ p = "/api/upload/logo/" ++ String.mk raw := by
  unfold toApiLogoPath at h
  rw [Option.map_eq_some'] at h
  obtain ⟨fn, hfn, hp⟩ := h
  obtain ⟨pn, raw, hup, hda, hm, hfneq⟩ := extract_inv _ _ hfn
  refine ⟨pn, raw, hup, ?_, hm, by rw [← hp, hfneq]⟩
  rcases hda with hda | hda
  · exact Or.inl (dropStart_eq _ _ _ hda)
  · exact Or.inr (dropStart_eq _ _ _ hda)

theorem toApiLogoPath_pathname_gate_witness :
    ∃ pn raw, urlPathname ("/uploads/a.png" : String).data = some pn ∧
      (pn = apiLogoPre ++ raw ∨ pn = uploadsPre ++ raw) ∧
      filenameMatches raw = true ∧
      ("/api/upload/logo/a.png" : String) = "/api/upload/logo/" ++ String.mk raw :=
  toApiLogoPath_pathname_gate "/uploads/a.png" "/api/upload/logo/a.png" (by decide)

/-- **C3** (counterexample): `https://evil.com/uploads/sub/../logo.png`
contains a `../` sequence and is an absolute external URL, yet
`toApiLogoPath` returns a path for it: the URL parser resolves the dot
segment and the host is ignored, so the claim as stated is false. -/
theorem toApiLogoPath_counterexample :
    containsSeq "../".toList "https://evil.com/uploads/sub/../logo.png".toList = true ∧
    strStartsWith "https://evil.com/uploads/sub/../logo.png" "https://" = true ∧
    toApiLogoPath (.jstr "https://evil.com/uploads/sub/../logo.png") =
      some "/api/upload/logo/logo.png" := by
  decide

example : toApiLogoPath (.jstr "/uploads/logo.png") = some "/api/upload/logo/logo.png" := by
  decide
example : toApiLogoPath (.jstr "/api/upload/logo/a-b_c.1.png") =
    some "/api/upload/logo/a-b_c.1.png" := by decide
example : toApiLogoPath (.jstr "/uploads/../etc") = none := by decide
example : toApiLogoPath (.jstr "https://evil.com/x.png") = none := by decide
example : toApiLogoPath (.jstr "https://evil.com/uploads/sub/../logo.png") =
    some "/api/upload/logo/logo.png" := by decide
example : toApiLogoPath (.jstr "") = none := by decide
example : toApiLogoPath (.jstr "/uploads/a b.png") = none := by decide
example : toApiLogoPath (.jstr "uploads/x.png") = some "/api/upload/logo/x.png" := by decide
example : toApiLogoPath .jsnull = none := by decide
example : toApiLogoPath (.jstr "javascript:alert(1)") = none := by decide
example : toApiLogoPath (.jstr "/uploads/x.png?q=../") = some "/api/upload/logo/x.png" := by
  decide
